import Mathlib

/-!
Shallow embedding of the WealthAutomation offer-matching, CTA-injection and
duplicate-guard logic (`affiliate_offer_library.py`, `daily_poster.py`).

Python strings are modelled as `List Char`; `random.choice` and
`random.shuffle` are modelled as explicit parameters (a pick index, a
permuted list); `datetime` timestamps are modelled as integers counted in
days.  Numeric priorities are modelled as integers.
-/

/-- Python whitespace class for `\s` and `str.strip` (ASCII part). -/
def pyIsSpace (c : Char) : Bool :=
  c = ' ' || c = '\t' || c = '\n' || c = '\r' || c = '\x0b' || c = '\x0c'

/-- ASCII digit, for the `\d` regex class. -/
def isDigitA (c : Char) : Bool :=
  '0' ≤ c && c ≤ '9'

/-- ASCII alphanumeric, for the `[^a-zA-Z0-9\s]` regex class. -/
def isAlnumA (c : Char) : Bool :=
  ('a' ≤ c && c ≤ 'z') || ('A' ≤ c && c ≤ 'Z') || ('0' ≤ c && c ≤ '9')

/-- Python `str.lower` (ASCII part). -/
def lowerStr (s : List Char) : List Char :=
  s.map Char.toLower

/-- Python substring containment `needle in haystack`. -/
def inStr (needle : List Char) : List Char → Bool
  | [] => needle.isEmpty
  | c :: cs => needle.isPrefixOf (c :: cs) || inStr needle cs

/-- Python `str.strip`: drop leading and trailing whitespace. -/
def stripWs (s : List Char) : List Char :=
  ((s.dropWhile pyIsSpace).reverse.dropWhile pyIsSpace).reverse

/-- Normalization used by the duplicate guard:
`re.sub(r'[^a-zA-Z0-9\s]', '', x).lower().strip()`. -/
def normalizeStr (s : List Char) : List Char :=
  stripWs (lowerStr (s.filter (fun c => isAlnumA c || pyIsSpace c)))

/-- An element of a Python list that is either a string or something of
another type (only `isinstance(·, str)` is ever asked of it). -/
inductive Entry where
  | str (s : List Char)
  | nonstr
deriving DecidableEq

/-- The value of the `priority` field: a number (modelled as an integer) or a
value failing `isinstance(priority, (int, float))`. -/
inductive PriVal where
  | num (n : Int)
  | nonnum
deriving DecidableEq

/-- An offer dictionary, with exactly the fields the library reads.
`ctaTemplates = none` models a missing or non-list field (both yield an empty
CTA); `url`/`id` are `none` when missing (defaults `"#"` / `"offer"`);
a missing `keywords`/`categories` field or a non-list value behaves as `[]`;
a missing `priority` field behaves as the numeric default `1`. -/
structure Offer where
  keywords : List Entry := []
  categories : List Entry := []
  priority : PriVal := .num 1
  ctaTemplates : Option (List Entry) := none
  url : Option (List Char) := none
  id : Option (List Char) := none
deriving DecidableEq

/-- An element of the offers store: a dict (a structurally valid offer) or a
non-dict item, which every routine skips. -/
inductive Item where
  | dict (o : Offer)
  | nondict
deriving DecidableEq

/-- Relevance scoring, `AffiliateOfferLibrary._score_offer`.  The three loops
of the source are the three folds, in source order. -/
def _score_offer (offer : Offer) (content title : List Char) : Int :=
  let content_lower := lowerStr content
  let title_lower := lowerStr title
  let s1 := offer.keywords.foldl (fun s kw =>
    match kw with
    | .str k => if inStr (lowerStr k) content_lower then s + 2 else s
    | .nonstr => s) 0
  let s2 := offer.keywords.foldl (fun s kw =>
    match kw with
    | .str k => if inStr (lowerStr k) title_lower then s + 5 else s
    | .nonstr => s) s1
  let s3 := offer.categories.foldl (fun s cat =>
    match cat with
    | .str c =>
      let s := if inStr (lowerStr c) content_lower then s + 1 else s
      if inStr (lowerStr c) title_lower then s + 3 else s
    | .nonstr => s) s2
  match offer.priority with
  | .num n => s3 + n
  | .nonnum => s3

/-- Python `current_priority > best_priority` guarded by the two
`isinstance(·, (int, float))` checks. -/
def priGT : PriVal → PriVal → Bool
  | .num a, .num b => decide (b < a)
  | _, _ => false

/-- Model of `random.choice`: pick an element by an arbitrary index, `none`
exactly on the empty list (where the Python call would raise). -/
def randomChoice {α : Type} (l : List α) (pick : Nat) : Option α :=
  l[pick % l.length]?

/-- The structurally valid (dict) offers of the store, in order. -/
def valid_offers (offers : List Item) : List Offer :=
  offers.filterMap fun it =>
    match it with
    | .dict o => some o
    | .nondict => none

/-- One iteration of the running-best loop in
`AffiliateOfferLibrary.match_content_to_offer`: state is
`(best_offer, highest_score)`, initially `(none, -1)`. -/
def matchStep (content title : List Char) (st : Option Offer × Int) (item : Item) :
    Option Offer × Int :=
  match item with
  | .nondict => st
  | .dict offer =>
    let score := _score_offer offer content title
    let current_priority := offer.priority
    let best_priority :=
      match st.1 with
      | some b => b.priority
      | none => PriVal.num 1
    if st.2 < score then (some offer, score)
    else if score = st.2 && priGT current_priority best_priority then (some offer, st.2)
    else st

/-- Model of `AffiliateOfferLibrary.match_content_to_offer`: running best over the
store, then the random fallback when no strictly positive score was found. -/
def match_content_to_offer (offers : List Item) (content title : List Char)
    (pick : Nat) : Option Offer :=
  if offers.isEmpty then none
  else
    let st := offers.foldl (matchStep content title) (none, -1)
    match st.1 with
    | some best_offer => if 0 < st.2 then some best_offer
                         else randomChoice (valid_offers offers) pick
    | none => randomChoice (valid_offers offers) pick

/-- The string elements of a `ctaTemplates` list (the
`[t for t in cta_templates if isinstance(t, str)]` filter). -/
def stringTemplates (ts : List Entry) : List (List Char) :=
  ts.filterMap fun e =>
    match e with
    | .str s => some s
    | .nonstr => none

/-- True when the offer has no usable CTA template: the field is missing, not
a list, an empty list, or a list with no string element. -/
def hasNoValidTemplates (o : Offer) : Bool :=
  match o.ctaTemplates with
  | none => true
  | some ts => (stringTemplates ts).isEmpty

/-- The literal placeholder substituted in CTA templates. -/
def urlPattern : List Char :=
  "\x7b\x7burl\x7d\x7d".data

/-- Fueled scanner for Python `str.split(sep)` with a non-empty separator:
left-to-right, non-overlapping occurrences of `pat` are cut out. -/
def splitOnA (pat : List Char) : Nat → List Char → List (List Char)
  | _, [] => [[]]
  | 0, s => [s]
  | fuel + 1, c :: cs =>
    if pat.isPrefixOf (c :: cs) then
      [] :: splitOnA pat fuel (List.drop pat.length (c :: cs))
    else
      match splitOnA pat fuel cs with
      | [] => [[c]]
      | p :: ps => (c :: p) :: ps

/-- Python `s.split(pat)` for a non-empty `pat`. -/
def splitOnSub (pat s : List Char) : List (List Char) :=
  splitOnA pat s.length s

/-- Python `s.replace(pat, rep)` for a non-empty `pat`, via the identity
`s.replace(pat, rep) = rep.join(s.split(pat))`. -/
def replaceAll (s pat rep : List Char) : List Char :=
  List.intercalate rep (splitOnSub pat s)

/-- The tracked URL built inside `AffiliateOfferLibrary.generate_cta_html`:
offer URL (default `"#"`), one separator chosen by the presence of `?`, then
the fixed UTM query string ending in the offer id (default `"offer"`). -/
def tracked_url (o : Offer) : List Char :=
  let offer_url := o.url.getD "#".data
  let separator := if inStr "?".data offer_url then "&".data else "?".data
  offer_url ++ separator ++
    "utm_source=wealthautomation&utm_medium=blog&utm_campaign=".data ++
    o.id.getD "offer".data

/-- Model of `AffiliateOfferLibrary.generate_cta_html`: validate the templates, pick
one, substitute the tracked URL for the placeholder. -/
def generate_cta_html (o : Offer) (pick : Nat) : List Char :=
  match o.ctaTemplates with
  | none => []
  | some cta_templates =>
    if cta_templates.isEmpty then []
    else
      let valid_templates := stringTemplates cta_templates
      if valid_templates.isEmpty then []
      else
        let template := (valid_templates[pick % valid_templates.length]?).getD []
        replaceAll template urlPattern (tracked_url o)

/-- Match the delimiter regex `(</p>\s*)` (case-insensitive on the `p`) at the
head of the input; on success return the matched delimiter and the rest. -/
def matchDelim : List Char → Option (List Char × List Char)
  | a :: b :: c :: d :: rest =>
    if a = '<' && b = '/' && (c = 'p' || c = 'P') && d = '>' then
      some ([a, b, c, d] ++ rest.takeWhile pyIsSpace, rest.dropWhile pyIsSpace)
    else none
  | _ => none

/-- Fueled scanner for `re.split(r"(</p>\s*)", content, flags=re.IGNORECASE)`:
text pieces and captured delimiters alternate, text first and last. -/
def splitParasA : Nat → List Char → List (List Char)
  | _, [] => [[]]
  | 0, s => [s]
  | fuel + 1, c :: cs =>
    match matchDelim (c :: cs) with
    | some (d, rest) => [] :: d :: splitParasA fuel rest
    | none =>
      match splitParasA fuel cs with
      | [] => [[c]]
      | p :: ps => (c :: p) :: ps

/-- The paragraph split used by middle injection. -/
def splitParas (s : List Char) : List (List Char) :=
  splitParasA s.length s

/-- Fueled count of the non-overlapping `</p>\s*` delimiter matches. -/
def countDelimsA : Nat → List Char → Nat
  | _, [] => 0
  | 0, _ => 0
  | fuel + 1, c :: cs =>
    match matchDelim (c :: cs) with
    | some (_, rest) => countDelimsA fuel rest + 1
    | none => countDelimsA fuel cs

/-- Number of closed-paragraph boundaries the splitter sees in the content. -/
def countDelims (s : List Char) : Nat :=
  countDelimsA s.length s

/-- Concatenation of the split segments (`"".join(paragraphs)`). -/
def joinL (ls : List (List Char)) : List Char :=
  ls.foldr (· ++ ·) []

/-- Python `list.insert(i, x)` for a non-negative index: insert before
position `i`, appending when `i` is past the end. -/
def listInsertAt {α : Type} (i : Nat) (x : α) (ls : List α) : List α :=
  ls.take i ++ [x] ++ ls.drop i

/-- The fixed container wrapped around a rendered CTA. -/
def cta_wrapper (o : Offer) (pick : Nat) : List Char :=
  "<div class=\"wealthautomation-cta\">".data ++ generate_cta_html o pick ++ "</div>".data

/-- Model of `AffiliateOfferLibrary.inject_cta_into_content` for a dict offer: render
the CTA (no-op when empty), then splice the wrapped CTA at the requested
position. -/
def inject_cta_into_content (content : List Char) (offer : Offer)
    (position : String) (pick : Nat) : List Char :=
  let cta_html := generate_cta_html offer pick
  if cta_html.isEmpty then content
  else
    let cta_wrap := "<div class=\"wealthautomation-cta\">".data ++ cta_html ++ "</div>".data
    if position = "end" then content ++ "\n\n".data ++ cta_wrap
    else if position = "middle" then
      let paragraphs := splitParas content
      if 3 < paragraphs.length then
        let middle_index := paragraphs.length / 2
        let middle_index := if middle_index % 2 = 0 then middle_index - 1 else middle_index
        joinL (listInsertAt (middle_index + 1) cta_wrap paragraphs)
      else content ++ "\n\n".data ++ cta_wrap
    else if position = "start" then cta_wrap ++ "\n\n".data ++ content
    else content ++ "\n\n".data ++ cta_wrap

/-- Consume exactly `n` digits. -/
def eatDigits : Nat → List Char → Option (List Char)
  | 0, s => some s
  | n + 1, c :: cs => if isDigitA c then eatDigits n cs else none
  | _ + 1, [] => none

/-- Consume one expected character. -/
def eatChar (ch : Char) : List Char → Option (List Char)
  | c :: cs => if c = ch then some cs else none
  | [] => none

/-- Consume an exact literal. -/
def eatLit : List Char → List Char → Option (List Char)
  | [], s => some s
  | p :: ps, c :: cs => if c = p then eatLit ps cs else none
  | _ :: _, [] => none

/-- Consume `\s+`: at least one whitespace character, greedily. -/
def eatSpaces1 : List Char → Option (List Char)
  | c :: cs => if pyIsSpace c then some (cs.dropWhile pyIsSpace) else none
  | [] => none

/-- Match the regex `\s*\(\d{4}-\d{2}-\d{2}\s+\d{2}:\d{2}\)\s*` at the head of
the input; on success return the rest after the match. -/
def matchTs (s : List Char) : Option (List Char) := do
  let s := s.dropWhile pyIsSpace
  let s ← eatChar '(' s
  let s ← eatDigits 4 s
  let s ← eatChar '-' s
  let s ← eatDigits 2 s
  let s ← eatChar '-' s
  let s ← eatDigits 2 s
  let s ← eatSpaces1 s
  let s ← eatDigits 2 s
  let s ← eatChar ':' s
  let s ← eatDigits 2 s
  let s ← eatChar ')' s
  some (s.dropWhile pyIsSpace)

/-- Match the regex `\s*-\s*Key\s+Strategies.*` at the head of the input
(`.` does not cross a newline); on success return the rest after the match. -/
def matchKS (s : List Char) : Option (List Char) := do
  let s := s.dropWhile pyIsSpace
  let s ← eatChar '-' s
  let s := s.dropWhile pyIsSpace
  let s ← eatLit "Key".data s
  let s ← eatSpaces1 s
  let s ← eatLit "Strategies".data s
  some (s.dropWhile (fun c => c ≠ '\n'))

/-- Fueled model of `re.sub(pattern, '', s)` for a pattern that never matches
the empty string: scan left to right, deleting each match. -/
def subAllA (m : List Char → Option (List Char)) : Nat → List Char → List Char
  | _, [] => []
  | 0, s => s
  | fuel + 1, c :: cs =>
    match m (c :: cs) with
    | some rest => subAllA m fuel rest
    | none => c :: subAllA m fuel cs

/-- Delete every `(YYYY-MM-DD HH:MM)` timestamp pattern. -/
def stripTs (s : List Char) : List Char :=
  subAllA matchTs s.length s

/-- Delete every `- Key Strategies...` suffix pattern. -/
def stripKS (s : List Char) : List Char :=
  subAllA matchKS s.length s

/-- The normalized form of a historical post title used by
`is_duplicate_blog_post`: strip the timestamp pattern, strip the
`- Key Strategies` suffix, then apply the common normalization. -/
def normalizedPostTitle (t : List Char) : List Char :=
  normalizeStr (stripKS (stripTs t))

/-- A record parsed from the blog-post log: a title and a timestamp.
Timestamps are integers counted in days. -/
structure Post where
  title : List Char
  timestamp : Int
deriving DecidableEq

/-- Model of `daily_poster.is_duplicate_blog_post`: some historical title, normalized,
equals the normalized topic and its timestamp lies inside the window
`[now - days_window, now]` (lower boundary inclusive). -/
def is_duplicate_blog_post (topic : List Char) (recent_posts : List Post)
    (now : Int) (days_window : Int := 7) : Bool :=
  if recent_posts.isEmpty then false
  else
    let window_start := now - days_window
    let normalized_topic := normalizeStr topic
    recent_posts.any fun post =>
      normalizedPostTitle post.title = normalized_topic
        && window_start ≤ post.timestamp

/-- First post with the minimal timestamp, starting from `p`: the head of
Python's stable `sorted(recent_posts, key=timestamp)`. -/
def oldestPost : Post → List Post → Post
  | p, [] => p
  | p, q :: qs => if q.timestamp < p.timestamp then oldestPost q qs else oldestPost p qs

/-- Model of `daily_poster.select_topic`, with the ambient randomness made explicit:
`shuffled` is the shuffled copy of the candidate list and `pick` drives the
final `random.choice(candidates)`.  Returns the first shuffled candidate that
is not a recent duplicate; otherwise the first candidate (in original order)
whose lowercased text occurs in the oldest logged title after suffix
stripping; otherwise a random candidate. -/
def select_topic (candidates shuffled : List (List Char)) (history : List Post)
    (now : Int) (pick : Nat) : Option (List Char) :=
  match shuffled.find? (fun t => !is_duplicate_blog_post t history now 7) with
  | some topic => some topic
  | none =>
    match history with
    | [] => randomChoice candidates pick
    | p :: ps =>
      let oldest := oldestPost p ps
      let base_title := stripKS (stripTs oldest.title)
      match candidates.find? (fun t => inStr (lowerStr t) (lowerStr base_title)) with
      | some topic => some topic
      | none => randomChoice candidates pick

/-- The template list of the spec's worked scenario offer. -/
def o1Templates : List Entry :=
  [Entry.str ("<a href=".data ++ urlPattern ++ ">Go</a>".data)]

/-- The offer of the spec's worked scenario:
`{keywords:["automation"], categories:[], priority:5,
ctaTemplates:["<a href={{url}}>Go</a>"], url:"https://x.com/?id=1", id:"o1"}`. -/
def o1spec : Offer :=
  { keywords := [.str "automation".data]
    categories := []
    priority := .num 5
    ctaTemplates := some o1Templates
    url := some "https://x.com/?id=1".data
    id := some "o1".data }

/-- Whether a keyword/category entry is a string whose lowercase form occurs
in the (already lowercased) haystack. -/
def entMatch (hay : List Char) (e : Entry) : Bool :=
  match e with
  | .str s => inStr (lowerStr s) hay
  | .nonstr => false

/-- The contribution of the `priority` field to the score. -/
def priValue : PriVal → Int
  | .num n => n
  | .nonnum => 0

/-- Number of entries of a keyword/category list matching a haystack. -/
def countMatches (l : List Entry) (hay : List Char) : Nat :=
  l.countP (entMatch hay)

lemma foldl_kw_count (hay : List Char) (k : Int) :
    ∀ (l : List Entry) (init : Int),
      (l.foldl (fun s kw =>
        match kw with
        | Entry.str kk => if inStr (lowerStr kk) hay then s + k else s
        | Entry.nonstr => s) init)
        = init + k * (countMatches l hay : Int) := by
  intro l
  induction l with
  | nil => intro init; simp [countMatches]
  | cons e es ih =>
    intro init
    cases e with
    | str s =>
      by_cases h : inStr (lowerStr s) hay
      · simp only [List.foldl_cons, h, if_true, ih]
        simp only [countMatches, List.countP_cons, entMatch, h]
        push_cast
        ring
      · simp only [List.foldl_cons, h, if_false, ih]
        simp [countMatches, List.countP_cons, entMatch, h]
    | nonstr =>
      simp only [List.foldl_cons, ih]
      simp [countMatches, List.countP_cons, entMatch]

lemma foldl_cat_count (hc ht : List Char) :
    ∀ (l : List Entry) (init : Int),
      (l.foldl (fun s cat =>
        match cat with
        | Entry.str c =>
          let s := if inStr (lowerStr c) hc then s + 1 else s
          if inStr (lowerStr c) ht then s + 3 else s
        | Entry.nonstr => s) init)
        = init + (countMatches l hc : Int) + 3 * (countMatches l ht : Int) := by
  intro l
  induction l with
  | nil => intro init; simp [countMatches]
  | cons e es ih =>
    intro init
    cases e with
    | str s =>
      simp only [List.foldl_cons, ih]
      by_cases h1 : inStr (lowerStr s) hc <;> by_cases h2 : inStr (lowerStr s) ht <;>
        simp [countMatches, List.countP_cons, entMatch, h1, h2] <;> omega
    | nonstr =>
      simp only [List.foldl_cons, ih]
      simp [countMatches, List.countP_cons, entMatch]

/-- Closed form of `_score_offer`: the claimed per-match weights plus the
priority, added once. -/
lemma score_eq (o : Offer) (content title : List Char) :
    _score_offer o content title
      = 2 * (countMatches o.keywords (lowerStr content) : Int)
        + 5 * (countMatches o.keywords (lowerStr title) : Int)
        + (countMatches o.categories (lowerStr content) : Int)
        + 3 * (countMatches o.categories (lowerStr title) : Int)
        + priValue o.priority := by
  simp only [_score_offer]
  rw [foldl_kw_count, foldl_kw_count, foldl_cat_count]
  cases o.priority with
  | num n => simp only [priValue]; ring
  | nonnum => simp only [priValue]; ring

lemma randomChoice_eq_none_iff {α : Type} (l : List α) (pick : Nat) :
    randomChoice l pick = none ↔ l = [] := by
  unfold randomChoice
  constructor
  · intro h
    by_contra hne
    have hlen : 0 < l.length := List.length_pos.mpr hne
    have hlt : pick % l.length < l.length := Nat.mod_lt _ hlen
    rw [List.getElem?_eq_getElem hlt] at h
    exact Option.noConfusion h
  · intro h
    subst h
    simp

lemma randomChoice_mem {α : Type} {l : List α} {pick : Nat} {a : α}
    (h : randomChoice l pick = some a) : a ∈ l :=
  List.getElem?_mem h

lemma randomChoice_exists {α : Type} {l : List α} (hne : l ≠ []) (pick : Nat) :
    ∃ a, randomChoice l pick = some a ∧ a ∈ l := by
  have hlen : 0 < l.length := List.length_pos.mpr hne
  have hlt : pick % l.length < l.length := Nat.mod_lt _ hlen
  refine ⟨l[pick % l.length], ?_, List.getElem_mem hlt⟩
  unfold randomChoice
  exact List.getElem?_eq_getElem hlt

/-- During the running-best fold, the tracked highest score stays nonpositive
when every valid offer scores nonpositively. -/
lemma foldl_matchStep_score_le (content title : List Char) :
    ∀ (offers : List Item) (st : Option Offer × Int),
      (∀ o ∈ valid_offers offers, _score_offer o content title ≤ 0) →
      st.2 ≤ 0 →
      (offers.foldl (matchStep content title) st).2 ≤ 0 := by
  intro offers
  induction offers with
  | nil => intro st _ hst; simpa using hst
  | cons it rest ih =>
    intro st hall hst
    rw [List.foldl_cons]
    cases it with
    | nondict =>
      apply ih
      · intro o ho
        exact hall o (by simpa [valid_offers] using ho)
      · simpa [matchStep] using hst
    | dict o =>
      have hrest : ∀ o' ∈ valid_offers rest, _score_offer o' content title ≤ 0 := by
        intro o' ho'
        exact hall o' (by simp [valid_offers] at ho' ⊢; exact Or.inr ho')
      have ho : _score_offer o content title ≤ 0 := by
        apply hall
        simp [valid_offers]
      refine ih _ hrest ?_
      simp only [matchStep]
      split
      · exact ho
      · split
        · exact hst
        · exact hst

/-- Python substring containment agrees with the existence of a
decomposition. -/
lemma inStr_iff (needle haystack : List Char) :
    inStr needle haystack = true ↔ ∃ l r, haystack = l ++ needle ++ r := by
  induction haystack with
  | nil =>
    simp only [inStr, List.isEmpty_iff]
    constructor
    · intro h
      exact ⟨[], [], by simp [h]⟩
    · rintro ⟨l, r, h⟩
      rcases List.append_eq_nil.mp (List.append_eq_nil.mp h.symm).1 with ⟨_, hn⟩
      exact hn
  | cons c cs ih =>
    simp only [inStr, Bool.or_eq_true, ih]
    constructor
    · rintro (hpre | ⟨l, r, h⟩)
      · obtain ⟨r, hr⟩ := List.isPrefixOf_iff_prefix.mp hpre
        exact ⟨[], r, by simp [← hr]⟩
      · exact ⟨c :: l, r, by simp [h]⟩
    · rintro ⟨l, r, h⟩
      cases l with
      | nil =>
        left
        exact List.isPrefixOf_iff_prefix.mpr ⟨r, by simpa using h.symm⟩
      | cons x xs =>
        right
        injection h with _ h2
        exact ⟨xs, r, h2⟩

lemma splitOnA_ne_nil (pat : List Char) :
    ∀ (fuel : Nat) (s : List Char), splitOnA pat fuel s ≠ [] := by
  intro fuel
  induction fuel with
  | zero => intro s; cases s <;> simp [splitOnA]
  | succ f ih =>
    intro s
    cases s with
    | nil => simp [splitOnA]
    | cons c cs =>
      simp only [splitOnA]
      split
      · simp
      · split <;> simp

lemma two_le_splitOnA (pat : List Char) (hpat : pat ≠ []) :
    ∀ (fuel : Nat) (s : List Char), inStr pat s = true → s.length ≤ fuel →
      2 ≤ (splitOnA pat fuel s).length := by
  intro fuel
  induction fuel with
  | zero =>
    intro s hin hlen
    have hs : s = [] := List.eq_nil_of_length_eq_zero (Nat.le_zero.mp hlen)
    subst hs
    simp [inStr, List.isEmpty_iff, hpat] at hin
  | succ f ih =>
    intro s hin hlen
    cases s with
    | nil => simp [inStr, List.isEmpty_iff, hpat] at hin
    | cons c cs =>
      simp only [splitOnA]
      by_cases hpre : pat.isPrefixOf (c :: cs)
      · rw [if_pos hpre]
        cases h : splitOnA pat f (List.drop pat.length (c :: cs)) with
        | nil => exact absurd h (splitOnA_ne_nil pat f _)
        | cons p ps => simp
      · rw [if_neg hpre]
        have hin' : inStr pat cs = true := by
          simp only [inStr, Bool.or_eq_true] at hin
          rcases hin with h | h
          · exact absurd h hpre
          · exact h
        have hlen' : cs.length ≤ f := by
          simpa [Nat.succ_le_succ_iff] using hlen
        have h2 := ih cs hin' hlen'
        cases h : splitOnA pat f cs with
        | nil => exact absurd h (splitOnA_ne_nil pat f cs)
        | cons p ps =>
          rw [h] at h2
          simpa using h2

lemma intercalate_two_le (rep : List Char) {parts : List (List Char)}
    (h : 2 ≤ parts.length) :
    ∃ l r, List.intercalate rep parts = l ++ rep ++ r := by
  match parts, h with
  | a :: b :: rest, _ =>
    exact ⟨a, List.intercalate rep (b :: rest), by simp [List.intercalate, List.intersperse]⟩

/-- Substituting a pattern that occurs leaves the replacement in the
result. -/
lemma replace_contains {t pat rep : List Char} (hpat : pat ≠ [])
    (h : inStr pat t = true) :
    inStr rep (replaceAll t pat rep) = true := by
  unfold replaceAll splitOnSub
  obtain ⟨l, r, heq⟩ :=
    intercalate_two_le rep (two_le_splitOnA pat hpat t.length t h le_rfl)
  rw [heq]
  exact (inStr_iff rep _).mpr ⟨l, r, rfl⟩

lemma matchDelim_spec {s d rest : List Char} (h : matchDelim s = some (d, rest)) :
    d ++ rest = s ∧ rest.length + 4 ≤ s.length := by
  match s with
  | [] => simp [matchDelim] at h
  | [_] => simp [matchDelim] at h
  | [_, _] => simp [matchDelim] at h
  | [_, _, _] => simp [matchDelim] at h
  | a :: b :: c :: e :: tail =>
    simp only [matchDelim] at h
    split at h
    · simp only [Option.some.injEq, Prod.mk.injEq] at h
      obtain ⟨hd, hr⟩ := h
      subst hd
      subst hr
      have hsplit := List.takeWhile_append_dropWhile pyIsSpace tail
      constructor
      · simp only [List.cons_append, List.append_assoc, List.nil_append]
        simp [hsplit]
      · have hlen := congrArg List.length hsplit
        simp only [List.length_append] at hlen
        simp only [List.length_cons]
        omega
    · exact Option.noConfusion h

lemma splitParasA_ne_nil :
    ∀ (fuel : Nat) (s : List Char), splitParasA fuel s ≠ [] := by
  intro fuel
  induction fuel with
  | zero => intro s; cases s <;> simp [splitParasA]
  | succ f ih =>
    intro s
    cases s with
    | nil => simp [splitParasA]
    | cons c cs =>
      simp only [splitParasA]
      split
      · simp
      · split <;> simp

lemma joinL_cons (x : List Char) (xs : List (List Char)) :
    joinL (x :: xs) = x ++ joinL xs := rfl

lemma joinL_append (l1 l2 : List (List Char)) :
    joinL (l1 ++ l2) = joinL l1 ++ joinL l2 := by
  induction l1 with
  | nil => simp [joinL]
  | cons x xs ih => simp only [List.cons_append, joinL_cons, ih, List.append_assoc]

lemma joinL_singleton (x : List Char) : joinL [x] = x := by
  rw [joinL_cons]
  simp [joinL]

/-- The delimiter-capturing split concatenates back to the original
content. -/
lemma joinL_splitParasA :
    ∀ (fuel : Nat) (s : List Char), s.length ≤ fuel →
      joinL (splitParasA fuel s) = s := by
  intro fuel
  induction fuel with
  | zero =>
    intro s hlen
    have hs : s = [] := List.eq_nil_of_length_eq_zero (Nat.le_zero.mp hlen)
    subst hs
    simp [splitParasA, joinL]
  | succ f ih =>
    intro s hlen
    cases s with
    | nil => simp [splitParasA, joinL]
    | cons c cs =>
      simp only [splitParasA]
      cases hm : matchDelim (c :: cs) with
      | some dr =>
        obtain ⟨d, rest⟩ := dr
        obtain ⟨hds, hlen4⟩ := matchDelim_spec hm
        have hrest : rest.length ≤ f := by
          simp only [List.length_cons] at hlen4 hlen
          omega
        rw [joinL_cons, joinL_cons, ih rest hrest]
        simpa using hds
      | none =>
        cases hs : splitParasA f cs with
        | nil => exact absurd hs (splitParasA_ne_nil f cs)
        | cons p ps =>
          have ihcs : joinL (p :: ps) = cs := by
            rw [← hs]
            exact ih cs (by simpa [Nat.succ_le_succ_iff] using hlen)
          rw [joinL_cons] at ihcs
          rw [joinL_cons]
          simp [ihcs]

/-- The split always has odd length: one text segment more than there are
delimiter matches. -/
lemma splitParasA_length :
    ∀ (fuel : Nat) (s : List Char), s.length ≤ fuel →
      (splitParasA fuel s).length = 2 * countDelimsA fuel s + 1 := by
  intro fuel
  induction fuel with
  | zero =>
    intro s hlen
    have hs : s = [] := List.eq_nil_of_length_eq_zero (Nat.le_zero.mp hlen)
    subst hs
    simp [splitParasA, countDelimsA]
  | succ f ih =>
    intro s hlen
    cases s with
    | nil => simp [splitParasA, countDelimsA]
    | cons c cs =>
      simp only [splitParasA, countDelimsA]
      cases hm : matchDelim (c :: cs) with
      | some dr =>
        obtain ⟨d, rest⟩ := dr
        obtain ⟨_, hlen4⟩ := matchDelim_spec hm
        have hrest : rest.length ≤ f := by
          simp only [List.length_cons] at hlen4 hlen
          omega
        simp only [List.length_cons, ih rest hrest]
        ring
      | none =>
        cases hs : splitParasA f cs with
        | nil => exact absurd hs (splitParasA_ne_nil f cs)
        | cons p ps =>
          have ihcs := ih cs (by simpa [Nat.succ_le_succ_iff] using hlen)
          rw [hs] at ihcs
          simpa using ihcs

/-- An all-default offer with numeric priority `0`, used as a zero-scoring
store element. -/
def oZero : Offer :=
  { priority := .num 0 }

/-- A one-element store whose only offer scores `0` on any input. -/
def offersZ : List Item :=
  [Item.dict oZero]

/-- C1: `score(offer, content, title)` adds `+2` per keyword entry found in
the lowercased body, `+5` per keyword entry found in the lowercased title,
`+1`/`+3` per category entry found in body/title, plus the numeric priority
once; matching is case-insensitive substring matching and non-string entries
are ignored (they never count).  In particular, the spec's worked offer
scores `7` on content `<p>automation</p>` and title `t`. -/
theorem score_formula :
    (∀ (o : Offer) (content title : List Char),
      _score_offer o content title
        = 2 * (countMatches o.keywords (lowerStr content) : Int)
          + 5 * (countMatches o.keywords (lowerStr title) : Int)
          + (countMatches o.categories (lowerStr content) : Int)
          + 3 * (countMatches o.categories (lowerStr title) : Int)
          + priValue o.priority)
    ∧ _score_offer o1spec "<p>automation</p>".data "t".data = 7 :=
  ⟨score_eq, by decide⟩

/-- C2: in the running-best loop of `match_content_to_offer`, an offer
replaces the current best exactly when its score is strictly higher, or its
score equals the tracked highest and its numeric priority is strictly higher
than the best's numeric priority; when score and priority are both equal
(or a priority is non-numeric) the first-seen offer is kept. -/
theorem matchStep_replacement_rule :
    ∀ (content title : List Char) (b : Offer) (h : Int) (o : Offer),
      (h < _score_offer o content title →
        matchStep content title (some b, h) (.dict o)
          = (some o, _score_offer o content title)) ∧
      (_score_offer o content title = h → priGT o.priority b.priority = true →
        matchStep content title (some b, h) (.dict o) = (some o, h)) ∧
      (_score_offer o content title = h → priGT o.priority b.priority = false →
        matchStep content title (some b, h) (.dict o) = (some b, h)) ∧
      (_score_offer o content title < h →
        matchStep content title (some b, h) (.dict o) = (some b, h)) ∧
      (∀ a pb : Int, o.priority = .num a → b.priority = .num pb →
        (priGT o.priority b.priority = true ↔ pb < a)) ∧
      (o.priority = b.priority → priGT o.priority b.priority = false) := by
  intro content title b h o
  refine ⟨?_, ?_, ?_, ?_, ?_, ?_⟩
  · intro hlt
    simp [matchStep, hlt]
  · intro hs hp
    simp [matchStep, hs, hp]
  · intro hs hp
    simp [matchStep, hs, hp]
  · intro hlt
    have h1 : ¬ (h < _score_offer o content title) := by omega
    have h2 : ¬ (_score_offer o content title = h) := by omega
    simp [matchStep, h1, h2]
  · intro a pb ha hb
    simp [ha, hb, priGT]
  · intro he
    rw [he]
    cases b.priority with
    | num n => simp [priGT]
    | nonnum => rfl

/-- Instance of the replacement rule: a strictly higher score at concrete
inputs replaces the current best. -/
theorem matchStep_replacement_rule_witness :
    matchStep [] [] (some oZero, 0) (.dict o1spec) = (some o1spec, 5) := by
  have h1 := (matchStep_replacement_rule [] [] oZero 0 o1spec).1 (by decide)
  rw [h1]
  decide

/-- C3: when no structurally valid offer scores strictly above `0`, the match
falls back to a random draw among the valid offers — for every draw the
result is a valid offer, and the result is `none` exactly when no valid offer
exists; on the empty store the match returns `none`. -/
theorem match_fallback_valid :
    ∀ (offers : List Item) (content title : List Char) (pick : Nat),
      (∀ o ∈ valid_offers offers, _score_offer o content title ≤ 0) →
      ((match_content_to_offer offers content title pick = none ↔
          valid_offers offers = []) ∧
        (∀ o, match_content_to_offer offers content title pick = some o →
          o ∈ valid_offers offers) ∧
        match_content_to_offer [] content title pick = none) := by
  intro offers content title pick hall
  have hempty : match_content_to_offer [] content title pick = none := by
    simp [match_content_to_offer]
  by_cases hoff : offers = []
  · subst hoff
    refine ⟨?_, ?_, hempty⟩
    · simp [match_content_to_offer, valid_offers]
    · intro o h
      simp [match_content_to_offer] at h
  · have hfold :=
      foldl_matchStep_score_le content title offers (none, -1) hall (by norm_num)
    have hres : match_content_to_offer offers content title pick
        = randomChoice (valid_offers offers) pick := by
      simp only [match_content_to_offer]
      rw [if_neg (by simpa [List.isEmpty_iff] using hoff)]
      have h2 : ¬ (0 < (offers.foldl (matchStep content title) (none, -1)).2) := by
        omega
      cases hst1 : (offers.foldl (matchStep content title) (none, -1)).1 with
      | none => simp [hst1]
      | some best =>
        simp only [hst1]
        rw [if_neg h2]
    refine ⟨?_, ?_, hempty⟩
    · rw [hres]
      exact randomChoice_eq_none_iff _ _
    · intro o h
      rw [hres] at h
      exact randomChoice_mem h

/-- Instance of the fallback behavior at a concrete zero-scoring store. -/
theorem match_fallback_valid_witness :
    (match_content_to_offer offersZ "x".data "y".data 0 = none ↔
      valid_offers offersZ = []) ∧
    (∀ o, match_content_to_offer offersZ "x".data "y".data 0 = some o →
      o ∈ valid_offers offersZ) ∧
    match_content_to_offer [] "x".data "y".data 0 = none :=
  match_fallback_valid offersZ "x".data "y".data 0 (by decide)

/-- The topic of the duplicate-guard worked example. -/
def topicW : List Char :=
  "AI Tools".data

/-- A logged title carrying both strippable suffix patterns. -/
def titleW : List Char :=
  "AI Tools (2025-01-01 12:00) - Key Strategies for 2025".data

/-- C4: `is_duplicate_blog_post` returns true exactly when some historical
record's title — after stripping the timestamp pattern and the
`- Key Strategies` suffix, removing non-alphanumerics, lowercasing and
trimming — equals the normalized topic and its timestamp is at least
`now - window_days` (boundary inclusive); hence a topic logged at `T` is a
duplicate at `T + 6` days with a 7-day window and not at `T + 8` days. -/
theorem duplicate_guard_window :
    ∀ (topic : List Char) (posts : List Post) (now w : Int),
      (is_duplicate_blog_post topic posts now w = true ↔
        ∃ p ∈ posts, normalizedPostTitle p.title = normalizeStr topic ∧
          now - w ≤ p.timestamp) ∧
      (∀ (T : Int) (title : List Char),
        normalizedPostTitle title = normalizeStr topic →
        is_duplicate_blog_post topic [⟨title, T⟩] (T + 6) 7 = true ∧
        is_duplicate_blog_post topic [⟨title, T⟩] (T + 8) 7 = false) := by
  intro topic posts now w
  constructor
  · by_cases hp : posts = []
    · subst hp
      simp [is_duplicate_blog_post]
    · simp only [is_duplicate_blog_post]
      rw [if_neg (by simpa [List.isEmpty_iff] using hp)]
      rw [List.any_eq_true]
      simp only [Bool.and_eq_true, decide_eq_true_eq]
  · intro T title heq
    constructor
    · simp only [is_duplicate_blog_post, List.isEmpty_cons, List.any_cons, List.any_nil,
        Bool.or_false, Bool.and_eq_true, decide_eq_true_eq]
      rw [if_neg (by simp)]
      simp only [List.any_cons, List.any_nil, Bool.or_false, Bool.and_eq_true,
        decide_eq_true_eq]
      exact ⟨heq, by omega⟩
    · simp only [is_duplicate_blog_post]
      rw [if_neg (by simp)]
      simp only [List.any_cons, List.any_nil, Bool.or_false]
      rw [Bool.and_eq_false_iff]
      right
      simp only [decide_eq_false_iff_not]
      omega

/-- Instance of the duplicate window at a concrete logged title that
exercises both suffix-stripping patterns. -/
theorem duplicate_guard_window_witness :
    is_duplicate_blog_post topicW [⟨titleW, 0⟩] 6 7 = true ∧
    is_duplicate_blog_post topicW [⟨titleW, 0⟩] 8 7 = false := by
  have h := (duplicate_guard_window topicW [] 0 0).2 0 titleW (by decide)
  simpa using h

/-- C5: for every non-empty candidate list, every history, and every outcome
of the shuffling and of the random choice, `select_topic` returns some
element of the candidate list: the first shuffled non-duplicate, else a
candidate matched against the oldest record's stripped title, else a random
candidate. -/
theorem select_topic_total :
    ∀ (candidates shuffled : List (List Char)) (history : List Post)
      (now : Int) (pick : Nat),
      candidates ≠ [] → List.Perm shuffled candidates →
      ∃ topic, select_topic candidates shuffled history now pick = some topic ∧
        topic ∈ candidates := by
  intro candidates shuffled history now pick hne hperm
  unfold select_topic
  cases hf : shuffled.find? (fun t => !is_duplicate_blog_post t history now 7) with
  | some t =>
    exact ⟨t, rfl, hperm.mem_iff.mp (List.mem_of_find?_eq_some hf)⟩
  | none =>
    cases history with
    | nil =>
      obtain ⟨a, ha, hmem⟩ := randomChoice_exists hne pick
      exact ⟨a, ha, hmem⟩
    | cons p ps =>
      simp only
      cases hf2 : candidates.find?
          (fun t => inStr (lowerStr t) (lowerStr (stripKS (stripTs (oldestPost p ps).title)))) with
      | some t =>
        exact ⟨t, rfl, List.mem_of_find?_eq_some hf2⟩
      | none =>
        obtain ⟨a, ha, hmem⟩ := randomChoice_exists hne pick
        exact ⟨a, ha, hmem⟩

/-- Instance of topic selection totality at a concrete singleton candidate
list. -/
theorem select_topic_total_witness :
    ∃ topic, select_topic ["a".data] ["a".data] [] 0 0 = some topic ∧
      topic ∈ ["a".data] :=
  select_topic_total ["a".data] ["a".data] [] 0 0 (by decide) (List.Perm.refl _)

/-- An offer with a single placeholder-free CTA template. -/
def oC6 : Offer :=
  { ctaTemplates := some [.str "CTA".data], url := some "u".data, id := some "i".data }

/-- A content with exactly two closed paragraph blocks. -/
def twoParas : List Char :=
  "<p>a</p><p>b</p>".data

/-- C6 counterexample: a content with exactly 2 paragraph blocks does NOT
degrade to the end-append behavior — the CTA is spliced between the two
paragraphs instead, so the fallback boundary is not between 2 and 3
paragraphs. -/
theorem middle_injection_two_paragraph_cex :
    countDelims twoParas = 2 ∧
    inject_cta_into_content twoParas oC6 "middle" 0
      ≠ twoParas ++ "\n\n".data ++ cta_wrapper oC6 0 ∧
    inject_cta_into_content twoParas oC6 "middle" 0
      = "<p>a</p>".data ++ cta_wrapper oC6 0 ++ "<p>b</p>".data := by
  decide

/-- C6 amended: the split always yields `2·(number of closing-paragraph
delimiters) + 1` segments, so fewer than 4 segments means at most ONE closed
paragraph; with at most one paragraph, middle injection degrades to the
end-append behavior, and with at least two paragraphs the wrapped CTA is
inserted after the odd-adjusted midpoint segment and all segments are
rejoined (the fallback-versus-middle boundary lies between 1 and 2
paragraph blocks). -/
theorem middle_injection_boundary :
    ∀ (content : List Char) (o : Offer) (pick : Nat),
      generate_cta_html o pick ≠ [] →
      ((splitParas content).length = 2 * countDelims content + 1 ∧
        (countDelims content ≤ 1 →
          inject_cta_into_content content o "middle" pick
            = content ++ "\n\n".data ++ cta_wrapper o pick) ∧
        (2 ≤ countDelims content →
          inject_cta_into_content content o "middle" pick
            = joinL (listInsertAt
                ((if (splitParas content).length / 2 % 2 = 0
                  then (splitParas content).length / 2 - 1
                  else (splitParas content).length / 2) + 1)
                (cta_wrapper o pick) (splitParas content)))) := by
  intro content o pick hcta
  have hlen : (splitParas content).length = 2 * countDelims content + 1 :=
    splitParasA_length content.length content le_rfl
  have hne : (generate_cta_html o pick).isEmpty = false := by
    cases hg : generate_cta_html o pick with
    | nil => exact absurd hg hcta
    | cons x xs => rfl
  refine ⟨hlen, ?_, ?_⟩
  · intro hd
    have h3 : ¬ (3 < (splitParas content).length) := by omega
    simp only [inject_cta_into_content, hne, Bool.false_eq_true, if_false]
    rw [if_pos trivial, if_neg h3]
    rfl
  · intro hd
    have h3 : 3 < (splitParas content).length := by omega
    simp only [inject_cta_into_content, hne, Bool.false_eq_true, if_false]
    rw [if_pos trivial, if_pos h3]
    rfl

/-- Instance of the amended middle-injection boundary at the two-paragraph
content. -/
theorem middle_injection_boundary_witness :
    (splitParas twoParas).length = 2 * countDelims twoParas + 1 ∧
    (countDelims twoParas ≤ 1 →
      inject_cta_into_content twoParas oC6 "middle" 0
        = twoParas ++ "\n\n".data ++ cta_wrapper oC6 0) ∧
    (2 ≤ countDelims twoParas →
      inject_cta_into_content twoParas oC6 "middle" 0
        = joinL (listInsertAt
            ((if (splitParas twoParas).length / 2 % 2 = 0
              then (splitParas twoParas).length / 2 - 1
              else (splitParas twoParas).length / 2) + 1)
            (cta_wrapper oC6 0) (splitParas twoParas))) :=
  middle_injection_boundary twoParas oC6 0 (by decide)

/-- C7: when the offer has at least one string template, the rendered CTA is
that template with the tracked URL substituted for every `\x7b\x7burl\x7d\x7d`
occurrence; when the placeholder occurs, the output contains the tracked URL,
which is the offer URL followed by exactly one separator character — `&` if
the URL already contains `?`, else `?` — and the fixed UTM query string
ending in the offer id (default `offer`). -/
theorem render_tracked_url :
    ∀ (o : Offer) (pick : Nat) (ts : List Entry),
      o.ctaTemplates = some ts → stringTemplates ts ≠ [] →
      ∃ template, template ∈ stringTemplates ts ∧
        generate_cta_html o pick = replaceAll template urlPattern (tracked_url o) ∧
        (inStr urlPattern template = true →
          inStr (tracked_url o) (generate_cta_html o pick) = true) ∧
        tracked_url o
          = o.url.getD "#".data
            ++ (if inStr "?".data (o.url.getD "#".data) then "&".data else "?".data)
            ++ "utm_source=wealthautomation&utm_medium=blog&utm_campaign=".data
            ++ o.id.getD "offer".data := by
  intro o pick ts hts hne
  have hts_ne : ts ≠ [] := by
    intro h
    subst h
    simp [stringTemplates] at hne
  have hlen : 0 < (stringTemplates ts).length := List.length_pos.mpr hne
  have hlt : pick % (stringTemplates ts).length < (stringTemplates ts).length :=
    Nat.mod_lt _ hlen
  have hgen : generate_cta_html o pick
      = replaceAll ((stringTemplates ts)[pick % (stringTemplates ts).length])
          urlPattern (tracked_url o) := by
    simp only [generate_cta_html, hts]
    rw [if_neg (by simpa [List.isEmpty_iff] using hts_ne)]
    rw [if_neg (by simpa [List.isEmpty_iff] using hne)]
    rw [List.getElem?_eq_getElem hlt]
    rfl
  refine ⟨(stringTemplates ts)[pick % (stringTemplates ts).length],
    List.getElem_mem hlt, hgen, ?_, rfl⟩
  intro hin
  rw [hgen]
  exact replace_contains (by decide) hin

/-- Instance of CTA rendering at the worked scenario offer. -/
theorem render_tracked_url_witness :
    ∃ template, template ∈ stringTemplates o1Templates ∧
      generate_cta_html o1spec 0
        = replaceAll template urlPattern (tracked_url o1spec) ∧
      (inStr urlPattern template = true →
        inStr (tracked_url o1spec) (generate_cta_html o1spec 0) = true) ∧
      tracked_url o1spec
        = o1spec.url.getD "#".data
          ++ (if inStr "?".data (o1spec.url.getD "#".data) then "&".data else "?".data)
          ++ "utm_source=wealthautomation&utm_medium=blog&utm_campaign=".data
          ++ o1spec.id.getD "offer".data :=
  render_tracked_url o1spec 0 o1Templates rfl (by decide)

/-- C8: an offer whose `ctaTemplates` is missing, not a list, empty, or
without any string element renders to the empty string; and whenever the
rendered CTA is empty, injection returns the original content unchanged. -/
theorem empty_cta_injection_noop :
    ∀ (o : Offer) (content : List Char) (position : String) (pick : Nat),
      (hasNoValidTemplates o = true → generate_cta_html o pick = []) ∧
      (generate_cta_html o pick = [] →
        inject_cta_into_content content o position pick = content) := by
  intro o content position pick
  constructor
  · intro hbad
    cases hts : o.ctaTemplates with
    | none => simp [generate_cta_html, hts]
    | some ts =>
      simp only [hasNoValidTemplates, hts] at hbad
      simp only [generate_cta_html, hts]
      by_cases hempty : ts.isEmpty = true
      · rw [if_pos hempty]
      · rw [if_neg hempty, if_pos hbad]
  · intro hgen
    simp [inject_cta_into_content, hgen]

/-- Instance of the empty-CTA no-op at an offer with no templates. -/
theorem empty_cta_injection_noop_witness :
    generate_cta_html oZero 0 = [] ∧
    inject_cta_into_content "c".data oZero "end" 0 = "c".data := by
  have h := empty_cta_injection_noop oZero "c".data "end" 0
  exact ⟨h.1 rfl, h.2 (h.1 rfl)⟩

/-- C9: with a well-formed (non-negative numeric, or absent) priority the
score is non-negative, and appending any keyword or category entry — in
particular a matching one — never decreases the score. -/
theorem score_nonneg_monotone :
    ∀ (o : Offer) (content title : List Char),
      0 ≤ priValue o.priority →
      (0 ≤ _score_offer o content title ∧
        (∀ e : Entry, _score_offer o content title
          ≤ _score_offer { o with keywords := o.keywords ++ [e] } content title) ∧
        (∀ e : Entry, _score_offer o content title
          ≤ _score_offer { o with categories := o.categories ++ [e] } content title)) := by
  intro o content title hpri
  refine ⟨?_, ?_, ?_⟩
  · rw [score_eq]
    have c1 : (0 : Int) ≤ (countMatches o.keywords (lowerStr content) : Int) :=
      Int.natCast_nonneg _
    have c2 : (0 : Int) ≤ (countMatches o.keywords (lowerStr title) : Int) :=
      Int.natCast_nonneg _
    have c3 : (0 : Int) ≤ (countMatches o.categories (lowerStr content) : Int) :=
      Int.natCast_nonneg _
    have c4 : (0 : Int) ≤ (countMatches o.categories (lowerStr title) : Int) :=
      Int.natCast_nonneg _
    linarith
  · intro e
    rw [score_eq, score_eq]
    simp only [countMatches, List.countP_append]
    push_cast
    have e1 : (0 : Int) ≤ (List.countP (entMatch (lowerStr content)) [e] : Int) :=
      Int.natCast_nonneg _
    have e2 : (0 : Int) ≤ (List.countP (entMatch (lowerStr title)) [e] : Int) :=
      Int.natCast_nonneg _
    linarith
  · intro e
    rw [score_eq, score_eq]
    simp only [countMatches, List.countP_append]
    push_cast
    have e1 : (0 : Int) ≤ (List.countP (entMatch (lowerStr content)) [e] : Int) :=
      Int.natCast_nonneg _
    have e2 : (0 : Int) ≤ (List.countP (entMatch (lowerStr title)) [e] : Int) :=
      Int.natCast_nonneg _
    linarith

/-- Instance of non-negativity and monotonicity at the worked scenario
offer, appending a matching keyword and category. -/
theorem score_nonneg_monotone_witness :
    0 ≤ priValue o1spec.priority ∧
    0 ≤ _score_offer o1spec "c".data "t".data ∧
    _score_offer o1spec "c".data "t".data
      ≤ _score_offer { o1spec with keywords := o1spec.keywords ++ [Entry.str "c".data] }
          "c".data "t".data ∧
    _score_offer o1spec "c".data "t".data
      ≤ _score_offer { o1spec with categories := o1spec.categories ++ [Entry.str "c".data] }
          "c".data "t".data := by
  have h := score_nonneg_monotone o1spec "c".data "t".data (by decide)
  exact ⟨by decide, h.1, h.2.1 _, h.2.2 _⟩

/-- C10: for every content, dict offer, position and template pick, the
injected output is the original content with a single block inserted at one
point: there is a decomposition `content = l ++ r` with the output equal to
`l ++ ins ++ r`, where `ins` is empty (no CTA), the wrapped CTA with a
leading blank line (end and fallback cases), the wrapped CTA with a trailing
blank line (start case), or the bare wrapped CTA (middle splice) — no text
is dropped, duplicated or reordered. -/
theorem inject_preserves_content :
    ∀ (content : List Char) (o : Offer) (position : String) (pick : Nat),
      ∃ l ins r, content = l ++ r ∧
        inject_cta_into_content content o position pick = l ++ ins ++ r ∧
        (ins = [] ∨ ins = "\n\n".data ++ cta_wrapper o pick ∨
          ins = cta_wrapper o pick ++ "\n\n".data ∨ ins = cta_wrapper o pick) := by
  intro content o position pick
  by_cases hcta : (generate_cta_html o pick).isEmpty = true
  · refine ⟨content, [], [], by simp, ?_, Or.inl rfl⟩
    simp [inject_cta_into_content, hcta]
  · have hne : (generate_cta_html o pick).isEmpty = false :=
      Bool.not_eq_true _ ▸ Bool.eq_false_iff.mpr hcta
    by_cases h1 : position = "end"
    · refine ⟨content, "\n\n".data ++ cta_wrapper o pick, [],
        by simp, ?_, Or.inr (Or.inl rfl)⟩
      simp [inject_cta_into_content, hne, h1, cta_wrapper, List.append_assoc]
    · by_cases h2 : position = "middle"
      · by_cases h3 : 3 < (splitParas content).length
        · refine ⟨joinL ((splitParas content).take
              ((if (splitParas content).length / 2 % 2 = 0
                then (splitParas content).length / 2 - 1
                else (splitParas content).length / 2) + 1)),
            cta_wrapper o pick,
            joinL ((splitParas content).drop
              ((if (splitParas content).length / 2 % 2 = 0
                then (splitParas content).length / 2 - 1
                else (splitParas content).length / 2) + 1)),
            ?_, ?_, Or.inr (Or.inr (Or.inr rfl))⟩
          · rw [← joinL_append, List.take_append_drop]
            exact (joinL_splitParasA content.length content le_rfl).symm
          · simp only [inject_cta_into_content, hne, Bool.false_eq_true, if_false, h2]
            rw [if_neg (show ¬("middle" : String) = "end" by decide), if_pos trivial,
              if_pos h3]
            simp only [listInsertAt, joinL_append, joinL_singleton, cta_wrapper]
        · refine ⟨content, "\n\n".data ++ cta_wrapper o pick, [],
            by simp, ?_, Or.inr (Or.inl rfl)⟩
          simp only [inject_cta_into_content, hne, Bool.false_eq_true, if_false, h2]
          rw [if_neg (show ¬("middle" : String) = "end" by decide), if_pos trivial,
            if_neg h3]
          simp [cta_wrapper, List.append_assoc]
      · by_cases h4 : position = "start"
        · refine ⟨[], cta_wrapper o pick ++ "\n\n".data, content,
            by simp, ?_, Or.inr (Or.inr (Or.inl rfl))⟩
          simp only [inject_cta_into_content, hne, Bool.false_eq_true, if_false]
          rw [if_neg h1, if_neg h2, if_pos h4]
          simp [cta_wrapper, List.append_assoc]
        · refine ⟨content, "\n\n".data ++ cta_wrapper o pick, [],
            by simp, ?_, Or.inr (Or.inl rfl)⟩
          simp only [inject_cta_into_content, hne, Bool.false_eq_true, if_false]
          rw [if_neg h1, if_neg h2, if_neg h4]
          simp [cta_wrapper, List.append_assoc]
